import Mathlib

/-!
Verification development for the fscmp filesystem-tree comparator
(`src/cmp/mod.rs`, `src/cmp/comparison.rs`).

The Rust code is shallowly embedded as follows.

* Machine integers (`u32`, `u64`, `usize`, `ino_t`) are modelled as `Nat`.
  All arithmetic performed by the embedded functions (`calc_leap`,
  `calc_chunk_count`, chunk ranges, block indices) stays far below `2^64`
  for every input considered here, so wrap-around is not modelled.
* `PathBuf` is modelled as `List String` (a list of path components);
  `Path::new(".")` is `rootPath = ["."]`.
* `HashMap<ino_t, PathBuf>` is modelled as an association list
  `List (Nat × List String)` with first-match lookup (`alookup`).  The code
  only ever inserts a key that is absent (`entry(..).or_insert_with`), so the
  association list always behaves exactly like the hash map.
* `HashSet<PathBuf>` directory listings are modelled as `List String`
  with `List.dedup`; the nondeterministic iteration order of the hash set
  (and of rayon's `par_iter().find_any`) is determinized to left-to-right
  order, and `find_any(|r| r.as_ref().ok() != Some(&Equal))` becomes the
  first non-`Equal` result in that order.
* A filesystem object is an `Entry`: its `stat` snapshot plus the data the
  comparator may read from it (directory children, file bytes, symlink
  target).  An open `openat::Dir` handle plus a relative path always
  resolves to the filesystem object at that path, so `EntryInfo`'s
  handle/metadata pair is modelled by the resolved object itself together
  with the two bookkeeping paths (`parent_path`, `path`) that the Rust
  struct maintains.
* `Fallible` errors are `RunResult.err`; a `panic!` is `RunResult.fatal`;
  normal returns are `RunResult.ok`.  State (the mutex-guarded pair of
  inode maps inside the `FSCmp` struct) is passed explicitly: every
  comparison operation takes the `FSCmp` value and returns the updated one.
-/

/-- Fixed display-block granularity, `BLOCK_SIZE` in the source (512). -/
def BLOCK_SIZE : Nat := 512

/-- Fixed I/O chunk size, `BUF_SIZE`/`BUF_SIZE_U64` in the source (256 KiB). -/
def BUF_SIZE : Nat := 256 * 1024

/-- Platform path-length ceiling `libc::PATH_MAX` used by `child_entry`. -/
def PATH_MAX : Nat := 4096

/-- File-type mask `libc::S_IFMT`. -/
def S_IFMT : Nat := 0o170000

/-- Directory file type `libc::S_IFDIR`. -/
def S_IFDIR : Nat := 0o040000

/-- Regular-file type `libc::S_IFREG`. -/
def S_IFREG : Nat := 0o100000

/-- Symbolic-link type `libc::S_IFLNK`. -/
def S_IFLNK : Nat := 0o120000

/-- Block-device type `libc::S_IFBLK`. -/
def S_IFBLK : Nat := 0o060000

/-- Character-device type `libc::S_IFCHR`. -/
def S_IFCHR : Nat := 0o020000

/-- FIFO type `libc::S_IFIFO`. -/
def S_IFIFO : Nat := 0o010000

/-- Socket type `libc::S_IFSOCK`. -/
def S_IFSOCK : Nat := 0o140000

/-- Embedding of `calc_chunk_count(limit, chunk_size)` (mod.rs:411-413):
`max(limit / chunk_size, 1)`. -/
def calc_chunk_count (limit chunk_size : Nat) : Nat :=
  max (limit / chunk_size) 1

/-- Embedding of `calc_leap(size, limit, chunk_size)` (mod.rs:415-421):
`limit` when `limit < chunk_size`, otherwise
`max(chunk_size, size / ((limit + chunk_size - 1) / chunk_size))`. -/
def calc_leap (size limit chunk_size : Nat) : Nat :=
  if limit < chunk_size then limit
  else max chunk_size (size / ((limit + chunk_size - 1) / chunk_size))

/-- Stat snapshot captured in `openat::Metadata` and read through
`metadata.stat()` by the comparator: exactly the fields `mod.rs` consults. -/
structure Stat where
  st_mode : Nat
  st_nlink : Nat
  st_uid : Nat
  st_gid : Nat
  st_size : Nat
  st_rdev : Nat
  st_ino : Nat
deriving DecidableEq, Repr

/-- Embedding of `enum Diff` from `cmp/comparison.rs` (unix variant). -/
inductive Diff : Type where
  | Modes (a b : Nat)
  | Nlinks (a b : Nat)
  | Uids (a b : Nat)
  | Gids (a b : Nat)
  | Inodes (a b : Option (List String))
  | Sizes (a b : Nat)
  | Contents (lba : Nat) (block1 block2 : List Nat)
  | DeviceTypes (a b : Nat)
  | LinkTarget (a b : List String)
  | DirContents (a b : List String)
deriving DecidableEq, Repr

/-- Embedding of `enum Comparison` from `cmp/comparison.rs`. -/
inductive Comparison : Type where
  | Equal
  | Unequal (diff : Diff) (first second : List String) (path : Option (List String))
deriving DecidableEq, Repr

/-- Result of running a comparison operation: `ok` is a normal `Fallible`
`Ok` return, `err` an operational failure (`Fallible` `Err`), and `fatal`
a process abort (`panic!`). -/
inductive RunResult (α : Type) : Type where
  | ok (val : α)
  | err
  | fatal
deriving DecidableEq, Repr

/-- Embedding of the `FSCmp` struct (mod.rs:46-53).  `inode_maps` is the
mutex-guarded pair `[HashMap<ino_t, PathBuf>; 2]`. -/
structure FSCmp where
  first : List String
  second : List String
  full_compare_limit : Option Nat
  ignored_dirs : List String
  inode_maps : List (Nat × List String) × List (Nat × List String)
deriving DecidableEq, Repr

/-- Embedding of `FSCmp::new` (mod.rs:129-142): the inode maps start empty. -/
def FSCmp.new (first second : List String) (full_compare_limit : Option Nat)
    (ignored_dirs : List String) : FSCmp :=
  { first := first, second := second, full_compare_limit := full_compare_limit,
    ignored_dirs := ignored_dirs, inode_maps := ([], []) }

/-- A filesystem object: the stat snapshot the comparator captures plus the
data it may read from the object (children of a directory, bytes of a
regular file, target of a symlink).  Fields that do not apply to the
object's type are simply never consulted by the comparator. -/
inductive Entry : Type where
  | mk : Stat → List (String × Entry) → List Nat → List String → Entry

/-- Stat snapshot of an entry. -/
def Entry.stat : Entry → Stat
  | .mk s _ _ _ => s

/-- Directory children of an entry, as (name, object) pairs. -/
def Entry.children : Entry → List (String × Entry)
  | .mk _ c _ _ => c

/-- File content of an entry, one `Nat` per byte. -/
def Entry.content : Entry → List Nat
  | .mk _ _ d _ => d

/-- Symlink target of an entry. -/
def Entry.target : Entry → List String
  | .mk _ _ _ t => t

/-- First-match lookup in an association-list inode map. -/
def alookup : List (Nat × List String) → Nat → Option (List String)
  | [], _ => none
  | (k, v) :: rest, key => if k = key then some v else alookup rest key

/-- Resolving one child name against a directory object; models
`Dir::metadata` / `sub_dir` resolution of a name that was just listed. -/
def lookupChild (e : Entry) (name : String) : Option Entry :=
  ((e.children).find? (fun p => p.1 == name)).map Prod.snd

/-- Embedding of `EntryInfo` (mod.rs:39-44): the two bookkeeping paths and
the resolved filesystem object standing for the handle/metadata pair. -/
structure EntryInfo where
  parent_path : List String
  path : List String
  entry : Entry

/-- The path `Path::new(".")` given to the roots of a tree comparison. -/
def rootPath : List String := ["."]

/-- Length in characters of the rendered path (components joined by "/"),
modelling `path.as_os_str().len()`. -/
def pathLen (p : List String) : Nat :=
  (p.map String.length).sum + (p.length - 1)

/-- Embedding of `EntryInfo::child_entry` (mod.rs:84-113): join the child
name onto the accumulated relative path (the guard mirrors
`self.path.starts_with(".")`, i.e. the first component is `"."`); when the
joined path would exceed `PATH_MAX`, reopen a handle at the child's parent
(extending `parent_path`) and keep only the final segment as `path`. -/
def child_entry (e : EntryInfo) (name : String) : Option EntryInfo :=
  let p := if e.path.head? = some "." then [name] else e.path ++ [name]
  (lookupChild e.entry name).map (fun ce =>
    if PATH_MAX < pathLen p then
      { parent_path := e.parent_path ++ p.dropLast, path := [name], entry := ce }
    else
      { parent_path := e.parent_path, path := p, entry := ce })

/-- Embedding of `EntryInfo::dir` (mod.rs:56-68) applied to a root object:
`path` is `"."` and `parent_path` is empty. -/
def rootEntryInfo (e : Entry) : EntryInfo :=
  { parent_path := [], path := rootPath, entry := e }

/-- Embedding of `FSCmp::unequal` (mod.rs:152-165): wrap a diff with the two
root paths, attaching the relative path only when both sides agree on it. -/
def unequal (c : FSCmp) (d : Diff) (first second : EntryInfo) : Comparison :=
  .Unequal d c.first c.second
    (if first.path = second.path then some (first.parent_path ++ first.path) else none)

/-- Embedding of `FSCmp::list_dir` with `entry_filter_map` (mod.rs:223-243):
the child names of a directory minus the configured ignore-set, as a
duplicate-free listing (the `HashSet` the code collects into). -/
def listDir (c : FSCmp) (e : EntryInfo) : List String :=
  ((e.entry.children.map Prod.fst).filter
    (fun n => !(c.ignored_dirs.contains n))).dedup

/-- Embedding of `get_diff_index` (mod.rs:402-409): index of the first
byte at which the two buffers differ, walking `zip(..).enumerate()`;
`none` models the `panic!()` reached when no index differs. -/
def get_diff_index : List Nat → List Nat → Option Nat
  | x :: xs, y :: ys =>
    if x ≠ y then some 0 else (get_diff_index xs ys).map (· + 1)
  | _, _ => none

/-- Embedding of `FileExt::read_exact_at` into a buffer of length `count`
at offset `start`: fails (short read) unless `start + count` bytes exist. -/
def readRange (content : List Nat) (start count : Nat) : Option (List Nat) :=
  if start + count ≤ content.length then some ((content.drop start).take count)
  else none

/-- Embedding of `SliceRange::subslice` (mod.rs:28-37):
`&self[start .. min(start + size, len)]`. -/
def subslice (l : List Nat) (start count : Nat) : List Nat :=
  (l.take (min (start + count) l.length)).drop start

/-- Body of the per-chunk closure of `FSCmp::contents_eq` (mod.rs:311-355),
iterated over the chunk indices in order (the determinization of
`into_par_iter().find_any(..)`): read both ranges, compare, and on a
mismatch report a `Contents` diff whose first component is the 512-byte
block index of the first differing byte and whose payloads are the
`subslice` blocks around it; `fatal` models the `panic!()` inside
`get_diff_index`. -/
def contents_loop (c : FSCmp) (first second : EntryInfo) (size leap : Nat) :
    List Nat → RunResult Comparison
  | [] => .ok .Equal
  | i :: rest =>
    let start := i * leap
    let stop := min size (i * leap + BUF_SIZE)
    match readRange first.entry.content start (stop - start) with
    | none => .err
    | some data1 =>
      match readRange second.entry.content start (stop - start) with
      | none => .err
      | some data2 =>
        if data1 = data2 then contents_loop c first second size leap rest
        else
          match get_diff_index data1 data2 with
          | some di =>
            .ok (unequal c
              (.Contents ((start + di) / BLOCK_SIZE)
                (subslice data1 (di / BLOCK_SIZE * BLOCK_SIZE) BLOCK_SIZE)
                (subslice data2 (di / BLOCK_SIZE * BLOCK_SIZE) BLOCK_SIZE))
              first second)
          | none => .fatal

/-- Embedding of `FSCmp::contents_eq` (mod.rs:279-364): size 0 is `Equal`
without reading; otherwise the effective limit is
`min(full_compare_limit, size)` (or `size` when no limit is configured) and
the chunks `[i*leap, min(size, i*leap + BUF_SIZE))` for
`i < calc_chunk_count(limit, BUF_SIZE)` are compared. -/
def contents_eq (c : FSCmp) (first second : EntryInfo) (size : Nat) :
    FSCmp × RunResult Comparison :=
  if size = 0 then (c, .ok .Equal)
  else
    let limit := match c.full_compare_limit with
      | some l => min l size
      | none => size
    let leap := calc_leap size limit BUF_SIZE
    (c, contents_loop c first second size leap
      (List.range (calc_chunk_count limit BUF_SIZE)))

/-- The chunk ranges `(i*leap) .. min(size, i*leap + chunk)` generated at
mod.rs:311-313, with the chunk size as a parameter. -/
def chunkRanges (size limit chunk : Nat) : List (Nat × Nat) :=
  (List.range (calc_chunk_count limit chunk)).map
    (fun i => (i * calc_leap size limit chunk,
               min size (i * calc_leap size limit chunk + chunk)))

/-- Whether the half-open range `r` contains byte offset `off`. -/
def coversOffset (r : Nat × Nat) (off : Nat) : Bool :=
  r.1 ≤ off && off < r.2

/-- The prefix of a file of length `size` that the chunks of a
no-limit comparison actually cover: everything when the file fits in one
chunk, otherwise only the first `size / BUF_SIZE` full chunks. -/
def coveredLen (size : Nat) : Nat :=
  if size < BUF_SIZE then size else size / BUF_SIZE * BUF_SIZE

/-- Embedding of `FSCmp::file_eq` (mod.rs:272-277): compare `st_size`
first, then the contents under the file's size. -/
def file_eq (c : FSCmp) (first second : EntryInfo) : FSCmp × RunResult Comparison :=
  if first.entry.stat.st_size ≠ second.entry.stat.st_size then
    (c, .ok (unequal c
      (.Sizes first.entry.stat.st_size second.entry.stat.st_size) first second))
  else contents_eq c first second first.entry.stat.st_size

/-- Embedding of `FSCmp::symlink_eq` (mod.rs:366-374). -/
def symlink_eq (c : FSCmp) (first second : EntryInfo) : FSCmp × RunResult Comparison :=
  if first.entry.target ≠ second.entry.target then
    (c, .ok (unequal c (.LinkTarget first.entry.target second.entry.target) first second))
  else (c, .ok .Equal)

/-- Embedding of `FSCmp::char_device_eq` (mod.rs:380-384): compare `st_rdev`. -/
def char_device_eq (c : FSCmp) (first second : EntryInfo) : FSCmp × RunResult Comparison :=
  if first.entry.stat.st_rdev ≠ second.entry.stat.st_rdev then
    (c, .ok (unequal c
      (.DeviceTypes first.entry.stat.st_rdev second.entry.stat.st_rdev) first second))
  else (c, .ok .Equal)

/-- Embedding of `FSCmp::block_device_eq` (mod.rs:376-378): delegates to
the character-device check. -/
def block_device_eq (c : FSCmp) (first second : EntryInfo) : FSCmp × RunResult Comparison :=
  char_device_eq c first second

/-- Embedding of `FSCmp::fifo_eq` (mod.rs:386-388): always equal. -/
def fifo_eq (c : FSCmp) (_first _second : EntryInfo) : FSCmp × RunResult Comparison :=
  (c, .ok .Equal)

/-- Embedding of `FSCmp::socket_eq` (mod.rs:390-392): always equal. -/
def socket_eq (c : FSCmp) (_first _second : EntryInfo) : FSCmp × RunResult Comparison :=
  (c, .ok .Equal)

/-- The `compare_metadata_field!` sequence of `entry_eq` (mod.rs:116-126,
203-208): `st_mode`, `st_uid`, `st_gid` compared in that order but skipped
when `isRoot` (the guard `first.path != Path::new(".")`), then `st_nlink`;
the first mismatching field yields its diff. -/
def metadata_diffs (isRoot : Bool) (s1 s2 : Stat) : Option Diff :=
  if isRoot = false ∧ s1.st_mode ≠ s2.st_mode then
    some (.Modes s1.st_mode s2.st_mode)
  else if isRoot = false ∧ s1.st_uid ≠ s2.st_uid then
    some (.Uids s1.st_uid s2.st_uid)
  else if isRoot = false ∧ s1.st_gid ≠ s2.st_gid then
    some (.Gids s1.st_gid s2.st_gid)
  else if s1.st_nlink ≠ s2.st_nlink then
    some (.Nlinks s1.st_nlink s2.st_nlink)
  else none

/-- The seven file types `entry_eq` dispatches on (mod.rs:210-219). -/
def recognizedType (ft : Nat) : Prop :=
  ft = S_IFDIR ∨ ft = S_IFREG ∨ ft = S_IFLNK ∨ ft = S_IFBLK ∨
  ft = S_IFCHR ∨ ft = S_IFIFO ∨ ft = S_IFSOCK

instance (ft : Nat) : Decidable (recognizedType ft) := by
  unfold recognizedType; infer_instance

/-- Whether every object in a tree (the dispatched side) has one of the
seven recognized file types. -/
def allRecognized (e : Entry) : Bool :=
  decide (recognizedType (e.stat.st_mode &&& S_IFMT)) &&
    e.children.attach.all (fun p => allRecognized p.1.2)
decreasing_by
  have h1 : sizeOf p.1 < sizeOf e.children := List.sizeOf_lt_of_mem p.2
  have h2 : sizeOf p.1.2 < sizeOf p.1 := by
    rcases p with ⟨⟨a, b⟩, hp⟩
    simp only [Prod.mk.sizeOf_spec]
    omega
  cases e with
  | mk s cs d t =>
    simp only [Entry.children] at h1
    simp only [Entry.mk.sizeOf_spec]
    omega

/-- Termination support: a child found by `lookupChild` is structurally
smaller than the directory object containing it. -/
theorem lookupChild_sizeOf {e : Entry} {n : String} {ce : Entry}
    (h : lookupChild e n = some ce) : sizeOf ce < sizeOf e := by
  unfold lookupChild at h
  rcases hf : (e.children).find? (fun p => p.1 == n) with _ | ab <;> rw [hf] at h
  · simp at h
  · simp only [Option.map_some', Option.some.injEq] at h
    have hmem := List.mem_of_find?_eq_some hf
    have hsz : sizeOf ab < sizeOf e.children := List.sizeOf_lt_of_mem hmem
    have hsz2 : sizeOf ab.2 < sizeOf ab := by
      rcases ab with ⟨a, b⟩
      simp only [Prod.mk.sizeOf_spec]
      omega
    cases e with
    | mk s cs d t =>
      simp only [Entry.children] at hsz
      simp only [Entry.mk.sizeOf_spec]
      subst h
      omega

/-- Termination support: `child_entry` only repackages a `lookupChild`
result, so the child object is structurally smaller than the parent. -/
theorem child_entry_sizeOf {e : EntryInfo} {n : String} {cf : EntryInfo}
    (h : child_entry e n = some cf) : sizeOf cf.entry < sizeOf e.entry := by
  unfold child_entry at h
  rcases Option.map_eq_some'.mp h with ⟨ce, hf, hcf⟩
  have hce : cf.entry = ce := by
    subst hcf
    by_cases hp : PATH_MAX < pathLen (if e.path.head? = some "." then [n] else e.path ++ [n]) <;>
      simp [hp]
  rw [hce]
  exact lookupChild_sizeOf hf

mutual

/-- Embedding of `FSCmp::entry_eq` (mod.rs:167-221).  First the identity
check under the inode-map lock (mod.rs:174-201): the two recorded optional
paths are compared with each other; a disagreement is an `Inodes` diff, an
agreement on a present value is a duplicate (`Equal` with no further
comparison), and when both are absent the two supplied paths are recorded
and the comparison proceeds (`entry_body`). -/
def entry_eq (c : FSCmp) (first second : EntryInfo) : FSCmp × RunResult Comparison :=
  let fv := alookup c.inode_maps.1 first.entry.stat.st_ino
  let sv := alookup c.inode_maps.2 second.entry.stat.st_ino
  if fv ≠ sv then
    (c, .ok (unequal c (.Inodes fv sv) first second))
  else if fv.isSome then
    (c, .ok .Equal)
  else
    entry_body
      { c with inode_maps :=
          ((first.entry.stat.st_ino, first.path) :: c.inode_maps.1,
           (second.entry.stat.st_ino, second.path) :: c.inode_maps.2) }
      first second
termination_by (sizeOf first.entry, 3, 0)

/-- Continuation of `entry_eq` past the identity check (mod.rs:203-220):
the metadata comparison followed by the dispatch on
`st_mode & S_IFMT`, whose fall-through arm is the `panic!`. -/
def entry_body (c : FSCmp) (first second : EntryInfo) : FSCmp × RunResult Comparison :=
  match metadata_diffs (decide (first.path = rootPath)) first.entry.stat second.entry.stat with
  | some d => (c, .ok (unequal c d first second))
  | none =>
    let ft := first.entry.stat.st_mode &&& S_IFMT
    if ft = S_IFDIR then dir_eq c first second
    else if ft = S_IFREG then file_eq c first second
    else if ft = S_IFLNK then symlink_eq c first second
    else if ft = S_IFBLK then block_device_eq c first second
    else if ft = S_IFCHR then char_device_eq c first second
    else if ft = S_IFIFO then fifo_eq c first second
    else if ft = S_IFSOCK then socket_eq c first second
    else (c, .fatal)
termination_by (sizeOf first.entry, 2, 0)

/-- Embedding of `FSCmp::dir_eq` (mod.rs:245-270): list both directories
(minus the ignore-set), report `DirContents` when the listing sizes differ,
otherwise walk the first listing. -/
def dir_eq (c : FSCmp) (first second : EntryInfo) : FSCmp × RunResult Comparison :=
  let names1 := listDir c first
  let names2 := listDir c second
  if names1.length ≠ names2.length then
    (c, .ok (unequal c (.DirContents names1 names2) first second))
  else dir_children_eq c first second names1 names2 names1
termination_by (sizeOf first.entry, 1, 0)

/-- The per-child loop of `dir_eq` (mod.rs:253-269), the determinization of
`par_iter().map(..).find_any(..)`: each name of the first listing is
either missing from the second listing (`DirContents`) or recursed into;
the first non-`Equal` result (a diff, an error, or — through descendants —
a panic) stops the walk. -/
def dir_children_eq (c : FSCmp) (first second : EntryInfo)
    (names1 names2 : List String) (pending : List String) :
    FSCmp × RunResult Comparison :=
  match pending with
  | [] => (c, .ok .Equal)
  | n :: rest =>
    if n ∈ names2 then
      match h1 : child_entry first n with
      | none => (c, .err)
      | some cf =>
        match child_entry second n with
        | none => (c, .err)
        | some cs =>
          match entry_eq c cf cs with
          | (c2, r) =>
            if r = .ok .Equal then dir_children_eq c2 first second names1 names2 rest
            else (c2, r)
    else
      (c, .ok (unequal c (.DirContents names1 names2) first second))
termination_by (sizeOf first.entry, 0, pending.length)
decreasing_by
  · exact Prod.Lex.left _ _ (child_entry_sizeOf h1)
  · apply Prod.Lex.right
    apply Prod.Lex.right
    simp

end

/-- Embedding of `FSCmp::dirs` (mod.rs:144-146): compare the two root
objects, each wrapped as the `EntryInfo` that `EntryInfo::dir` builds. -/
def dirs (c : FSCmp) (root1 root2 : Entry) : FSCmp × RunResult Comparison :=
  entry_eq c (rootEntryInfo root1) (rootEntryInfo root2)

/-- Embedding of `FSCmp::contents` (mod.rs:148-150): raw content comparison
of two file objects under a forced size, each wrapped as the `EntryInfo`
that `EntryInfo::file` builds (path = the file's name). -/
def contents (c : FSCmp) (name1 name2 : String) (e1 e2 : Entry) (size : Nat) :
    FSCmp × RunResult Comparison :=
  contents_eq c
    { parent_path := [], path := [name1], entry := e1 }
    { parent_path := [], path := [name2], entry := e2 } size

/-- How one comparison step may change the engine state: the four
configuration fields are untouched and the two inode maps grow (at the
front) by the same number of newly registered entries. -/
def stateEvolves (old new : FSCmp) : Prop :=
  new.first = old.first ∧ new.second = old.second ∧
  new.full_compare_limit = old.full_compare_limit ∧
  new.ignored_dirs = old.ignored_dirs ∧
  ∃ l1 l2, new.inode_maps.1 = l1 ++ old.inode_maps.1 ∧
    new.inode_maps.2 = l2 ++ old.inode_maps.2 ∧
    l1.length = l2.length

/-! ## Supporting lemmas -/

/-- Unchanged state trivially evolves from itself. -/
theorem stateEvolves_refl (c : FSCmp) : stateEvolves c c :=
  ⟨rfl, rfl, rfl, rfl, [], [], rfl, rfl, rfl⟩

/-- State evolution is transitive. -/
theorem stateEvolves_trans {a b c : FSCmp}
    (h1 : stateEvolves a b) (h2 : stateEvolves b c) : stateEvolves a c := by
  obtain ⟨f1, s1, l1, i1, x1, y1, hx1, hy1, hl1⟩ := h1
  obtain ⟨f2, s2, l2, i2, x2, y2, hx2, hy2, hl2⟩ := h2
  refine ⟨f2.trans f1, s2.trans s1, l2.trans l1, i2.trans i1,
    x2 ++ x1, y2 ++ y1, ?_, ?_, ?_⟩
  · rw [hx2, hx1, List.append_assoc]
  · rw [hy2, hy1, List.append_assoc]
  · simp [hl1, hl2]

/-- Specification of `get_diff_index`: on lists of equal length it returns
the index of the first position where they differ. -/
theorem get_diff_index_first_diff {a b : List Nat} {d : Nat}
    (hlen : a.length = b.length)
    (hd : a[d]? ≠ b[d]?)
    (hpre : ∀ t, t < d → a[t]? = b[t]?) :
    get_diff_index a b = some d := by
  induction a generalizing b d with
  | nil =>
    cases b with
    | nil => simp at hd
    | cons y ys => simp at hlen
  | cons x xs ih =>
    cases b with
    | nil => simp at hlen
    | cons y ys =>
      cases d with
      | zero =>
        have hxy : x ≠ y := by simpa using hd
        simp [get_diff_index, hxy]
      | succ d =>
        have hx : x = y := by
          have := hpre 0 (Nat.succ_pos d)
          simpa using this
        subst hx
        have htail : get_diff_index xs ys = some d := by
          refine ih (by simpa using hlen) (by simpa using hd) ?_
          intro t ht
          have := hpre (t + 1) (by omega)
          simpa using this
        simp [get_diff_index, htail]

/-- On lists of equal length that are not equal, `get_diff_index` finds a
first differing index (so the `panic!` branch is not taken). -/
theorem get_diff_index_exists {a b : List Nat}
    (hlen : a.length = b.length) (hne : a ≠ b) :
    ∃ i, get_diff_index a b = some i ∧ i < a.length ∧ a[i]? ≠ b[i]? ∧
      ∀ j, j < i → a[j]? = b[j]? := by
  classical
  have hex : ∃ i : Nat, a[i]? ≠ b[i]? := by
    by_contra h
    push_neg at h
    exact hne (List.ext_getElem? h)
  refine ⟨Nat.find hex, ?_, ?_, Nat.find_spec hex, ?_⟩
  · refine get_diff_index_first_diff hlen (Nat.find_spec hex) ?_
    intro t ht
    have := Nat.find_min hex ht
    simpa using this
  · by_contra hge
    push_neg at hge
    have h1 : a[Nat.find hex]? = none := by
      rw [List.getElem?_eq_none_iff]
      omega
    have h2 : b[Nat.find hex]? = none := by
      rw [List.getElem?_eq_none_iff]
      omega
    exact Nat.find_spec hex (h1.trans h2.symm)
  · intro j hj
    have := Nat.find_min hex hj
    simpa using this

/-! ## Claims -/

/-- C2. The pure sampling functions return exactly the specified values:
`calc_leap(100,50,2) = 4`, `calc_leap(50,50,2) = 2`, `calc_leap(150,30,2)
= 10`, `calc_leap(25,50,2) = 2`, `calc_leap(25,1,2) = 1`, and
`calc_chunk_count(1,2) = 1`, `calc_chunk_count(50,2) = 25`,
`calc_chunk_count(20,2) = 10`. -/
theorem C2_sampling_values :
    calc_leap 100 50 2 = 4 ∧ calc_leap 50 50 2 = 2 ∧
    calc_leap 150 30 2 = 10 ∧ calc_leap 25 50 2 = 2 ∧
    calc_leap 25 1 2 = 1 ∧ calc_chunk_count 1 2 = 1 ∧
    calc_chunk_count 50 2 = 25 ∧ calc_chunk_count 20 2 = 10 := by
  decide

/-- C9. For every pair of byte slices of equal positive length with
`a ≠ b`, `get_diff_index(a, b)` returns the least index at which they
differ, and the `panic!` at the end of the function is not reached (the
returned value is `some`, never the `none` that models the panic). -/
theorem C9_get_diff_index_least (a b : List Nat)
    (hlen : a.length = b.length) (hpos : 0 < a.length) (hne : a ≠ b) :
    ∃ i, get_diff_index a b = some i ∧ i < a.length ∧ a[i]? ≠ b[i]? ∧
      ∀ j, j < i → a[j]? = b[j]? :=
  get_diff_index_exists hlen hne

/-- C9 witness: the theorem applied to the concrete slices `[0, 1]` and
`[0, 2]` of length 2, which differ first (and only) at index 1. -/
theorem C9_get_diff_index_least_witness :
    ([0, 1] : List Nat).length = ([0, 2] : List Nat).length ∧
    0 < ([0, 1] : List Nat).length ∧ ([0, 1] : List Nat) ≠ [0, 2] ∧
    ∃ i, get_diff_index [0, 1] [0, 2] = some i ∧
      i < ([0, 1] : List Nat).length ∧
      ([0, 1] : List Nat)[i]? ≠ ([0, 2] : List Nat)[i]? ∧
      ∀ j, j < i → ([0, 1] : List Nat)[j]? = ([0, 2] : List Nat)[j]? :=
  ⟨rfl, by decide, by decide,
    C9_get_diff_index_least [0, 1] [0, 2] rfl (by decide) (by decide)⟩

/-- Helper: a non-root `st_mode` mismatch is the first reported field. -/
theorem metadata_diffs_modes (s1 s2 : Stat) (h : s1.st_mode ≠ s2.st_mode) :
    metadata_diffs false s1 s2 = some (.Modes s1.st_mode s2.st_mode) := by
  unfold metadata_diffs
  simp [h]

/-- Helper: with equal modes, a non-root `st_uid` mismatch is reported. -/
theorem metadata_diffs_uids (s1 s2 : Stat) (hm : s1.st_mode = s2.st_mode)
    (h : s1.st_uid ≠ s2.st_uid) :
    metadata_diffs false s1 s2 = some (.Uids s1.st_uid s2.st_uid) := by
  unfold metadata_diffs
  simp [hm, h]

/-- Helper: with equal modes and uids, a non-root `st_gid` mismatch is
reported. -/
theorem metadata_diffs_gids (s1 s2 : Stat) (hm : s1.st_mode = s2.st_mode)
    (hu : s1.st_uid = s2.st_uid) (h : s1.st_gid ≠ s2.st_gid) :
    metadata_diffs false s1 s2 = some (.Gids s1.st_gid s2.st_gid) := by
  unfold metadata_diffs
  simp [hm, hu, h]

/-- Helper: with equal modes, uids and gids, an `st_nlink` mismatch is
reported. -/
theorem metadata_diffs_nlinks (s1 s2 : Stat) (hm : s1.st_mode = s2.st_mode)
    (hu : s1.st_uid = s2.st_uid) (hg : s1.st_gid = s2.st_gid)
    (h : s1.st_nlink ≠ s2.st_nlink) :
    metadata_diffs false s1 s2 = some (.Nlinks s1.st_nlink s2.st_nlink) := by
  unfold metadata_diffs
  simp [hm, hu, hg, h]

/-- C5 counterexample.  The claim states the comparison order mode, nlink,
uid, gid.  For a non-root pair of stats that differ in both `st_nlink`
(3 vs 4) and `st_uid` (1 vs 2) — with equal mode and gid — the claim
predicts an `Nlinks 3 4` diff, but the code (mod.rs:203-208) compares
`st_uid` before `st_nlink` and reports `Uids 1 2`. -/
theorem C5_claim_counterexample :
    metadata_diffs false
        ⟨0o100644, 3, 1, 10, 0, 0, 5⟩ ⟨0o100644, 4, 2, 10, 0, 0, 6⟩ =
      some (Diff.Uids 1 2) ∧
    some (Diff.Uids 1 2) ≠ some (Diff.Nlinks 3 4) := by
  decide

/-- C5 amended.  In `entry_eq` the scalar metadata fields are compared in
the fixed order mode, owner (uid), group (gid), link count (nlink) — with
mode, uid and gid all skipped for the tree roots (see C6) — and for every
pair of entries differing in more than one of these fields the diff
reported is the first differing field in that order. -/
theorem C5_metadata_field_order (s1 s2 : Stat) :
    (s1.st_mode ≠ s2.st_mode →
      metadata_diffs false s1 s2 = some (.Modes s1.st_mode s2.st_mode)) ∧
    (s1.st_mode = s2.st_mode → s1.st_uid ≠ s2.st_uid →
      metadata_diffs false s1 s2 = some (.Uids s1.st_uid s2.st_uid)) ∧
    (s1.st_mode = s2.st_mode → s1.st_uid = s2.st_uid →
        s1.st_gid ≠ s2.st_gid →
      metadata_diffs false s1 s2 = some (.Gids s1.st_gid s2.st_gid)) ∧
    (s1.st_mode = s2.st_mode → s1.st_uid = s2.st_uid →
        s1.st_gid = s2.st_gid → s1.st_nlink ≠ s2.st_nlink →
      metadata_diffs false s1 s2 = some (.Nlinks s1.st_nlink s2.st_nlink)) :=
  ⟨metadata_diffs_modes s1 s2, metadata_diffs_uids s1 s2,
   metadata_diffs_gids s1 s2, metadata_diffs_nlinks s1 s2⟩

/-- C5 witness: the amended theorem applied to stats that differ in every
field; the first reported field is the mode. -/
theorem C5_metadata_field_order_witness :
    (0o100644 : Nat) ≠ 0o100755 ∧
    metadata_diffs false ⟨0o100644, 1, 1, 1, 0, 0, 1⟩ ⟨0o100755, 2, 2, 2, 0, 0, 2⟩ =
      some (.Modes 0o100644 0o100755) :=
  ⟨by decide,
   (C5_metadata_field_order ⟨0o100644, 1, 1, 1, 0, 0, 1⟩
     ⟨0o100755, 2, 2, 2, 0, 0, 2⟩).1 (by decide)⟩

/-- C7 (code bug).  With `limit = size = 3` and chunk size 2 the code
produces `calc_leap = 2` and the single chunk `[0, 2)`
(`calc_chunk_count(3, 2) = max(3/2, 1) = 1`): no generated chunk covers
the final byte at offset 2, although the claim (and spec §4.4) state that
the last chunk, covering the final bytes of the file, is always included
when the limit equals the size.  The same gap scales to the fixed
`BUF_SIZE = 262144`: a file of 393216 bytes is compared only on
`[0, 262144)` even with no compare limit configured. -/
theorem C7_last_chunk_gap :
    calc_leap 3 3 2 = 2 ∧
    chunkRanges 3 3 2 = [(0, 2)] ∧
    (chunkRanges 3 3 2).any (fun r => coversOffset r 2) = false := by
  decide

/-- C3 counterexample.  The claim states that `entry_eq` returns the
duplicate `Equal` only when both recorded inode paths equal the supplied
relative path arguments.  Here both maps record the shared inode pair at
path `["a"]` while the supplied entries have path `["b"]`: the recorded
values disagree with the supplied arguments, yet the code compares the two
recorded values only with each other (mod.rs:179-192) and returns `Equal`
— an outcome the claim's three-way case split does not allow. -/
theorem C3_claim_counterexample :
    entry_eq
        { first := ["fr"], second := ["sr"], full_compare_limit := none,
          ignored_dirs := [], inode_maps := ([(5, ["a"])], [(7, ["a"])]) }
        { parent_path := [], path := ["b"],
          entry := .mk ⟨0o100644, 1, 0, 0, 0, 0, 5⟩ [] [] [] }
        { parent_path := [], path := ["b"],
          entry := .mk ⟨0o100644, 1, 0, 0, 0, 0, 7⟩ [] [] [] } =
      ({ first := ["fr"], second := ["sr"], full_compare_limit := none,
         ignored_dirs := [], inode_maps := ([(5, ["a"])], [(7, ["a"])]) },
       .ok .Equal) ∧
    (["b"] : List String) ≠ ["a"] := by
  constructor
  · simp [entry_eq, alookup, Entry.stat]
  · decide

/-- C3 amended.  When `entry_eq` consults the identity tracker there are
exactly three outcomes, decided by comparing the two recorded optional
paths with each other (not with the supplied path arguments): if the two
recorded values disagree (one side recorded, or both recorded with
different paths) it immediately returns an `Inodes` diff carrying the two
recorded optional paths, with the maps untouched and before any metadata
field is compared; if both are recorded with the same path it returns the
duplicate `Equal` with no further comparison; otherwise (both absent) it
records both supplied paths and proceeds with the full comparison
(`entry_body`). -/
theorem C3_identity_trichotomy (c : FSCmp) (f s : EntryInfo) :
    (alookup c.inode_maps.1 f.entry.stat.st_ino ≠
        alookup c.inode_maps.2 s.entry.stat.st_ino →
      entry_eq c f s = (c, .ok (unequal c
        (.Inodes (alookup c.inode_maps.1 f.entry.stat.st_ino)
                 (alookup c.inode_maps.2 s.entry.stat.st_ino)) f s))) ∧
    (∀ p, alookup c.inode_maps.1 f.entry.stat.st_ino = some p →
        alookup c.inode_maps.2 s.entry.stat.st_ino = some p →
      entry_eq c f s = (c, .ok .Equal)) ∧
    (alookup c.inode_maps.1 f.entry.stat.st_ino = none →
        alookup c.inode_maps.2 s.entry.stat.st_ino = none →
      entry_eq c f s = entry_body
        { c with inode_maps :=
            ((f.entry.stat.st_ino, f.path) :: c.inode_maps.1,
             (s.entry.stat.st_ino, s.path) :: c.inode_maps.2) } f s) := by
  refine ⟨?_, ?_, ?_⟩
  · intro hne
    rw [entry_eq]
    simp [hne]
  · intro p h1 h2
    rw [entry_eq, h1, h2]
    simp
  · intro h1 h2
    rw [entry_eq, h1, h2]
    simp

/-- C3 witness: the first (Inodes-diff) outcome of the amended theorem at a
concrete state where only the first map has recorded the inode. -/
theorem C3_identity_trichotomy_witness :
    (alookup [(5, ["a"])] 5 ≠ alookup [] 7) ∧
    entry_eq
        { first := ["fr"], second := ["sr"], full_compare_limit := none,
          ignored_dirs := [], inode_maps := ([(5, ["a"])], []) }
        { parent_path := [], path := ["b"],
          entry := .mk ⟨0o100644, 1, 0, 0, 0, 0, 5⟩ [] [] [] }
        { parent_path := [], path := ["b"],
          entry := .mk ⟨0o100644, 1, 0, 0, 0, 0, 7⟩ [] [] [] } =
      ({ first := ["fr"], second := ["sr"], full_compare_limit := none,
         ignored_dirs := [], inode_maps := ([(5, ["a"])], []) },
       .ok (unequal
        { first := ["fr"], second := ["sr"], full_compare_limit := none,
          ignored_dirs := [], inode_maps := ([(5, ["a"])], []) }
        (.Inodes (some ["a"]) none)
        { parent_path := [], path := ["b"],
          entry := .mk ⟨0o100644, 1, 0, 0, 0, 0, 5⟩ [] [] [] }
        { parent_path := [], path := ["b"],
          entry := .mk ⟨0o100644, 1, 0, 0, 0, 0, 7⟩ [] [] [] })) :=
  ⟨by decide,
   by
    have h := (C3_identity_trichotomy
      { first := ["fr"], second := ["sr"], full_compare_limit := none,
        ignored_dirs := [], inode_maps := ([(5, ["a"])], []) }
      { parent_path := [], path := ["b"],
        entry := .mk ⟨0o100644, 1, 0, 0, 0, 0, 5⟩ [] [] [] }
      { parent_path := [], path := ["b"],
        entry := .mk ⟨0o100644, 1, 0, 0, 0, 0, 7⟩ [] [] [] }).1 (by decide)
    simpa [alookup, Entry.stat] using h⟩

/-- C6.  For the two root entries of a tree comparison (which carry the
path `"."`, so the guard `first.path != Path::new(".")` is false), the
metadata comparison can never yield a `Modes`, `Uids` or `Gids` diff
whatever the two stats are; for every non-root entry (path different from
`"."`) whose inode pair is being seen for the first time, a difference in
mode — or in uid with equal modes, or in gid with equal modes and uids —
makes `entry_eq` return the corresponding diff. -/
theorem C6_root_exemption :
    (∀ (s1 s2 : Stat) (a b : Nat),
      metadata_diffs true s1 s2 ≠ some (.Modes a b) ∧
      metadata_diffs true s1 s2 ≠ some (.Uids a b) ∧
      metadata_diffs true s1 s2 ≠ some (.Gids a b)) ∧
    (∀ (c : FSCmp) (f s : EntryInfo),
      f.path ≠ rootPath →
      alookup c.inode_maps.1 f.entry.stat.st_ino = none →
      alookup c.inode_maps.2 s.entry.stat.st_ino = none →
      ((f.entry.stat.st_mode ≠ s.entry.stat.st_mode →
        (entry_eq c f s).2 = .ok (unequal c
          (.Modes f.entry.stat.st_mode s.entry.stat.st_mode) f s)) ∧
       (f.entry.stat.st_mode = s.entry.stat.st_mode →
        f.entry.stat.st_uid ≠ s.entry.stat.st_uid →
        (entry_eq c f s).2 = .ok (unequal c
          (.Uids f.entry.stat.st_uid s.entry.stat.st_uid) f s)) ∧
       (f.entry.stat.st_mode = s.entry.stat.st_mode →
        f.entry.stat.st_uid = s.entry.stat.st_uid →
        f.entry.stat.st_gid ≠ s.entry.stat.st_gid →
        (entry_eq c f s).2 = .ok (unequal c
          (.Gids f.entry.stat.st_gid s.entry.stat.st_gid) f s)))) := by
  constructor
  · intro s1 s2 a b
    unfold metadata_diffs
    refine ⟨?_, ?_, ?_⟩ <;> simp
  · intro c f s hroot h1 h2
    have hdec : (decide (f.path = rootPath)) = false := by
      simp [hroot]
    have hstep : entry_eq c f s = entry_body
        { c with inode_maps :=
            ((f.entry.stat.st_ino, f.path) :: c.inode_maps.1,
             (s.entry.stat.st_ino, s.path) :: c.inode_maps.2) } f s := by
      rw [entry_eq, h1, h2]
      simp
    refine ⟨?_, ?_, ?_⟩
    · intro hmode
      rw [hstep, entry_body, hdec, metadata_diffs_modes _ _ hmode]
      simp [unequal]
    · intro hmode huid
      rw [hstep, entry_body, hdec, metadata_diffs_uids _ _ hmode huid]
      simp [unequal]
    · intro hmode huid hgid
      rw [hstep, entry_body, hdec, metadata_diffs_gids _ _ hmode huid hgid]
      simp [unequal]

/-- C6 witness: the non-root mode clause applied to concrete fresh entries
at path `["a"]` whose modes are 1 and 2. -/
theorem C6_root_exemption_witness :
    (["a"] : List String) ≠ rootPath ∧ (1 : Nat) ≠ 2 ∧
    (entry_eq (FSCmp.new ["fr"] ["sr"] none [])
        { parent_path := [], path := ["a"],
          entry := .mk ⟨1, 1, 0, 0, 0, 0, 5⟩ [] [] [] }
        { parent_path := [], path := ["a"],
          entry := .mk ⟨2, 1, 0, 0, 0, 0, 7⟩ [] [] [] }).2 =
      .ok (unequal (FSCmp.new ["fr"] ["sr"] none []) (.Modes 1 2)
        { parent_path := [], path := ["a"],
          entry := .mk ⟨1, 1, 0, 0, 0, 0, 5⟩ [] [] [] }
        { parent_path := [], path := ["a"],
          entry := .mk ⟨2, 1, 0, 0, 0, 0, 7⟩ [] [] [] }) :=
  ⟨by decide, by decide,
   by
    have h := ((C6_root_exemption.2 (FSCmp.new ["fr"] ["sr"] none [])
      { parent_path := [], path := ["a"],
        entry := .mk ⟨1, 1, 0, 0, 0, 0, 5⟩ [] [] [] }
      { parent_path := [], path := ["a"],
        entry := .mk ⟨2, 1, 0, 0, 0, 0, 7⟩ [] [] [] }
      (by decide) rfl rfl).1) (by decide)
    simpa [Entry.stat] using h⟩
/-- Step lemma: the inode-identity check returns an `Inodes` diff when the
two recorded values disagree, leaving the state untouched. -/
theorem entry_eq_inodes_diff {c : FSCmp} {f s : EntryInfo}
    (hne : alookup c.inode_maps.1 f.entry.stat.st_ino ≠
           alookup c.inode_maps.2 s.entry.stat.st_ino) :
    entry_eq c f s = (c, .ok (unequal c
      (.Inodes (alookup c.inode_maps.1 f.entry.stat.st_ino)
               (alookup c.inode_maps.2 s.entry.stat.st_ino)) f s)) := by
  rw [entry_eq]
  simp [hne]

/-- Step lemma: the identity check reports a duplicate when both recorded
values are present and equal, leaving the state untouched. -/
theorem entry_eq_dup {c : FSCmp} {f s : EntryInfo} {p : List String}
    (h1 : alookup c.inode_maps.1 f.entry.stat.st_ino = some p)
    (h2 : alookup c.inode_maps.2 s.entry.stat.st_ino = some p) :
    entry_eq c f s = (c, .ok .Equal) := by
  rw [entry_eq, h1, h2]
  simp

/-- Step lemma: on a fresh inode pair both paths are recorded and the
comparison proceeds. -/
theorem entry_eq_fresh {c : FSCmp} {f s : EntryInfo}
    (h1 : alookup c.inode_maps.1 f.entry.stat.st_ino = none)
    (h2 : alookup c.inode_maps.2 s.entry.stat.st_ino = none) :
    entry_eq c f s = entry_body
      { c with inode_maps :=
          ((f.entry.stat.st_ino, f.path) :: c.inode_maps.1,
           (s.entry.stat.st_ino, s.path) :: c.inode_maps.2) } f s := by
  rw [entry_eq, h1, h2]
  simp

/-- Step lemma: `dir_eq` unfolded. -/
theorem dir_eq_unfold (c : FSCmp) (f s : EntryInfo) :
    dir_eq c f s =
      if (listDir c f).length ≠ (listDir c s).length then
        (c, .ok (unequal c (.DirContents (listDir c f) (listDir c s)) f s))
      else dir_children_eq c f s (listDir c f) (listDir c s) (listDir c f) := by
  rw [dir_eq]

/-- Step lemma: the child walk on an empty pending list. -/
theorem dir_children_eq_nil (c : FSCmp) (f s : EntryInfo) (n1 n2 : List String) :
    dir_children_eq c f s n1 n2 [] = (c, .ok .Equal) := by
  rw [dir_children_eq]

/-- Step lemma: a name missing from the second listing is a `DirContents`
diff. -/
theorem dir_children_eq_notmem {c : FSCmp} {f s : EntryInfo}
    {n1 n2 : List String} {nm : String} {rest : List String}
    (hmem : nm ∉ n2) :
    dir_children_eq c f s n1 n2 (nm :: rest) =
      (c, .ok (unequal c (.DirContents n1 n2) f s)) := by
  rw [dir_children_eq]
  simp only [if_neg hmem]

/-- Step lemma: failure to resolve the first side's child is an error. -/
theorem dir_children_eq_err1 {c : FSCmp} {f s : EntryInfo}
    {n1 n2 : List String} {nm : String} {rest : List String}
    (hmem : nm ∈ n2) (hc1 : child_entry f nm = none) :
    dir_children_eq c f s n1 n2 (nm :: rest) = (c, .err) := by
  rw [dir_children_eq]
  simp only [if_pos hmem]
  split
  next => rfl
  next cf h => rw [hc1] at h; cases h

/-- Step lemma: failure to resolve the second side's child is an error. -/
theorem dir_children_eq_err2 {c : FSCmp} {f s : EntryInfo}
    {n1 n2 : List String} {nm : String} {rest : List String} {cf : EntryInfo}
    (hmem : nm ∈ n2) (hc1 : child_entry f nm = some cf)
    (hc2 : child_entry s nm = none) :
    dir_children_eq c f s n1 n2 (nm :: rest) = (c, .err) := by
  rw [dir_children_eq]
  simp only [if_pos hmem, hc2]
  split
  next h => rfl
  next cf2 h => rfl

/-- Step lemma: a resolvable child pair is recursed into; the walk
continues only on `Equal`. -/
theorem dir_children_eq_cons {c : FSCmp} {f s : EntryInfo}
    {n1 n2 : List String} {nm : String} {rest : List String}
    {cf cs2 : EntryInfo}
    (hmem : nm ∈ n2) (hc1 : child_entry f nm = some cf)
    (hc2 : child_entry s nm = some cs2) :
    dir_children_eq c f s n1 n2 (nm :: rest) =
      if (entry_eq c cf cs2).2 = .ok .Equal
      then dir_children_eq (entry_eq c cf cs2).1 f s n1 n2 rest
      else entry_eq c cf cs2 := by
  rw [dir_children_eq]
  simp only [if_pos hmem, hc2]
  split
  next h => rw [hc1] at h; cases h
  next cf2 h =>
    rw [hc1] at h
    cases h
    rfl
/-- The raw content comparison never touches the engine state. -/
theorem contents_eq_fst (c : FSCmp) (f s : EntryInfo) (size : Nat) :
    (contents_eq c f s size).1 = c := by
  unfold contents_eq
  split <;> rfl

/-- The regular-file comparison never touches the engine state. -/
theorem file_eq_fst (c : FSCmp) (f s : EntryInfo) : (file_eq c f s).1 = c := by
  unfold file_eq
  split
  · rfl
  · exact contents_eq_fst c f s _

/-- The symlink comparison never touches the engine state. -/
theorem symlink_eq_fst (c : FSCmp) (f s : EntryInfo) : (symlink_eq c f s).1 = c := by
  unfold symlink_eq
  split <;> rfl

/-- The character-device comparison never touches the engine state. -/
theorem char_device_eq_fst (c : FSCmp) (f s : EntryInfo) :
    (char_device_eq c f s).1 = c := by
  unfold char_device_eq
  split <;> rfl

/-- The block-device comparison never touches the engine state. -/
theorem block_device_eq_fst (c : FSCmp) (f s : EntryInfo) :
    (block_device_eq c f s).1 = c :=
  char_device_eq_fst c f s

/-- A state-preserving step evolves the state trivially. -/
theorem stateEvolves_of_fst_eq {c : FSCmp} {r : FSCmp × RunResult Comparison}
    (h : r.1 = c) : stateEvolves c r.1 := by
  rw [h]
  exact stateEvolves_refl c

/-- Registering one inode pair evolves the state. -/
theorem stateEvolves_insert (c : FSCmp) (x y : Nat × List String) :
    stateEvolves c { c with inode_maps :=
      (x :: c.inode_maps.1, y :: c.inode_maps.2) } :=
  ⟨rfl, rfl, rfl, rfl, [x], [y], rfl, rfl, rfl⟩

/-- Master state lemma: every engine operation — `entry_eq`, its
continuation, the directory walk — preserves the four configuration
fields and extends the two inode maps by equally many entries. -/
theorem engine_state_evolves :
    ∀ (n : Nat) (f s : EntryInfo), sizeOf f.entry ≤ n →
      (∀ c, stateEvolves c (entry_eq c f s).1) ∧
      (∀ c, stateEvolves c (entry_body c f s).1) ∧
      (∀ c, stateEvolves c (dir_eq c f s).1) ∧
      (∀ c n1 n2 pending, stateEvolves c (dir_children_eq c f s n1 n2 pending).1) := by
  intro n
  induction n with
  | zero =>
    intro f s h
    exfalso
    cases hE : f.entry with
    | mk st cs d t =>
      rw [hE] at h
      simp only [Entry.mk.sizeOf_spec] at h
      omega
  | succ n ih =>
    intro f s hsz
    have hchildren : ∀ pending c n1 n2,
        stateEvolves c (dir_children_eq c f s n1 n2 pending).1 := by
      intro pending
      induction pending with
      | nil =>
        intro c n1 n2
        rw [dir_children_eq_nil]
        exact stateEvolves_refl c
      | cons nm rest ihp =>
        intro c n1 n2
        by_cases hmem : nm ∈ n2
        · rcases hc1 : child_entry f nm with _ | cf
          · rw [dir_children_eq_err1 hmem hc1]
            exact stateEvolves_refl c
          · rcases hc2 : child_entry s nm with _ | cs2
            · rw [dir_children_eq_err2 hmem hc1 hc2]
              exact stateEvolves_refl c
            · rw [dir_children_eq_cons hmem hc1 hc2]
              have hcfsz : sizeOf cf.entry ≤ n := by
                have := child_entry_sizeOf hc1
                omega
              have hev : stateEvolves c (entry_eq c cf cs2).1 :=
                ((ih cf cs2 hcfsz).1) c
              split
              · exact stateEvolves_trans hev (ihp _ n1 n2)
              · exact hev
        · rw [dir_children_eq_notmem hmem]
          exact stateEvolves_refl c
    have hdir : ∀ c, stateEvolves c (dir_eq c f s).1 := by
      intro c
      rw [dir_eq_unfold]
      split
      · exact stateEvolves_refl c
      · exact hchildren _ c _ _
    have hbody : ∀ c, stateEvolves c (entry_body c f s).1 := by
      intro c
      rw [entry_body]
      rcases hmd : metadata_diffs (decide (f.path = rootPath)) f.entry.stat s.entry.stat
        with _ | d <;> simp only [hmd]
      · split
        · exact hdir c
        · split
          · exact stateEvolves_of_fst_eq (file_eq_fst c f s)
          · split
            · exact stateEvolves_of_fst_eq (symlink_eq_fst c f s)
            · split
              · exact stateEvolves_of_fst_eq (block_device_eq_fst c f s)
              · split
                · exact stateEvolves_of_fst_eq (char_device_eq_fst c f s)
                · split
                  · exact stateEvolves_refl c
                  · split
                    · exact stateEvolves_refl c
                    · exact stateEvolves_refl c
      · exact stateEvolves_refl c
    refine ⟨?_, hbody, hdir, fun c n1 n2 pending => hchildren pending c n1 n2⟩
    intro c
    rcases h1 : alookup c.inode_maps.1 f.entry.stat.st_ino with _ | p1
    · rcases h2 : alookup c.inode_maps.2 s.entry.stat.st_ino with _ | p2
      · rw [entry_eq_fresh h1 h2]
        exact stateEvolves_trans (stateEvolves_insert c _ _) (hbody _)
      · rw [entry_eq_inodes_diff (by rw [h1, h2]; simp)]
        exact stateEvolves_refl c
    · rcases h2 : alookup c.inode_maps.2 s.entry.stat.st_ino with _ | p2
      · rw [entry_eq_inodes_diff (by rw [h1, h2]; simp)]
        exact stateEvolves_refl c
      · by_cases hp : p1 = p2
        · subst hp
          rw [entry_eq_dup h1 h2]
          exact stateEvolves_refl c
        · rw [entry_eq_inodes_diff (by rw [h1, h2]; simp [hp])]
          exact stateEvolves_refl c

/-- A state that evolved from `c` differs from `c` at most in its
`inode_maps` field. -/
theorem eta_of_evolves {c r : FSCmp} (h : stateEvolves c r) :
    r = { c with inode_maps := r.inode_maps } := by
  obtain ⟨h1, h2, h3, h4, _⟩ := h
  cases r
  cases c
  simp_all

/-- C10.  Every comparison operation of the engine — `dirs`, `contents`,
`entry_eq`, `dir_eq`, `file_eq`, `contents_eq`, `symlink_eq` and the
device/FIFO/socket handlers — returns a state that agrees with the input
state on `first`, `second`, `full_compare_limit` and `ignored_dirs`: since
`FSCmp` has exactly one further field, `inode_maps` is the only component
any operation mutates. -/
theorem C10_config_frame :
    (∀ (c : FSCmp) (r1 r2 : Entry),
      (dirs c r1 r2).1 = { c with inode_maps := (dirs c r1 r2).1.inode_maps }) ∧
    (∀ (c : FSCmp) (nm1 nm2 : String) (e1 e2 : Entry) (sz : Nat),
      (contents c nm1 nm2 e1 e2 sz).1 =
        { c with inode_maps := (contents c nm1 nm2 e1 e2 sz).1.inode_maps }) ∧
    (∀ (c : FSCmp) (f s : EntryInfo),
      (entry_eq c f s).1 = { c with inode_maps := (entry_eq c f s).1.inode_maps }) ∧
    (∀ (c : FSCmp) (f s : EntryInfo),
      (dir_eq c f s).1 = { c with inode_maps := (dir_eq c f s).1.inode_maps }) ∧
    (∀ (c : FSCmp) (f s : EntryInfo),
      (file_eq c f s).1 = { c with inode_maps := (file_eq c f s).1.inode_maps }) ∧
    (∀ (c : FSCmp) (f s : EntryInfo) (sz : Nat),
      (contents_eq c f s sz).1 =
        { c with inode_maps := (contents_eq c f s sz).1.inode_maps }) ∧
    (∀ (c : FSCmp) (f s : EntryInfo),
      (symlink_eq c f s).1 = { c with inode_maps := (symlink_eq c f s).1.inode_maps }) ∧
    (∀ (c : FSCmp) (f s : EntryInfo),
      (block_device_eq c f s).1 =
        { c with inode_maps := (block_device_eq c f s).1.inode_maps }) ∧
    (∀ (c : FSCmp) (f s : EntryInfo),
      (char_device_eq c f s).1 =
        { c with inode_maps := (char_device_eq c f s).1.inode_maps }) ∧
    (∀ (c : FSCmp) (f s : EntryInfo),
      (fifo_eq c f s).1 = { c with inode_maps := (fifo_eq c f s).1.inode_maps }) ∧
    (∀ (c : FSCmp) (f s : EntryInfo),
      (socket_eq c f s).1 = { c with inode_maps := (socket_eq c f s).1.inode_maps }) := by
  have hent : ∀ (c : FSCmp) (f s : EntryInfo),
      (entry_eq c f s).1 = { c with inode_maps := (entry_eq c f s).1.inode_maps } :=
    fun c f s =>
      eta_of_evolves (((engine_state_evolves (sizeOf f.entry) f s le_rfl).1) c)
  have hdir2 : ∀ (c : FSCmp) (f s : EntryInfo),
      (dir_eq c f s).1 = { c with inode_maps := (dir_eq c f s).1.inode_maps } :=
    fun c f s =>
      eta_of_evolves (((engine_state_evolves (sizeOf f.entry) f s le_rfl).2.2.1) c)
  have hfst : ∀ {c : FSCmp} {r : FSCmp × RunResult Comparison}, r.1 = c →
      r.1 = { c with inode_maps := r.1.inode_maps } := by
    intro c r h
    rw [h]
  refine ⟨fun c r1 r2 => hent c _ _, fun c nm1 nm2 e1 e2 sz => hfst (contents_eq_fst c _ _ sz),
    hent, hdir2, fun c f s => hfst (file_eq_fst c f s),
    fun c f s sz => hfst (contents_eq_fst c f s sz),
    fun c f s => hfst (symlink_eq_fst c f s),
    fun c f s => hfst (block_device_eq_fst c f s),
    fun c f s => hfst (char_device_eq_fst c f s),
    fun c f s => hfst rfl, fun c f s => hfst rfl⟩

/-- C4 counterexample.  The claim says every `entry_eq` call inserts
exactly one new entry into each inode map or leaves both unchanged.
Comparing a fresh directory (inode 1) holding one regular file child
(inode 2) against itself inserts two entries into each map — the root's
registration plus the child's, added by the recursive call — so the call
inserts more than one entry per map. -/
theorem C4_claim_counterexample :
    entry_eq (FSCmp.new ["fr"] ["sr"] none [])
        (rootEntryInfo (.mk ⟨0o040755, 2, 0, 0, 0, 0, 1⟩
          [("a", .mk ⟨0o100644, 1, 0, 0, 0, 0, 2⟩ [] [] [])] [] []))
        (rootEntryInfo (.mk ⟨0o040755, 2, 0, 0, 0, 0, 1⟩
          [("a", .mk ⟨0o100644, 1, 0, 0, 0, 0, 2⟩ [] [] [])] [] [])) =
      ({ FSCmp.new ["fr"] ["sr"] none [] with inode_maps :=
          ([(2, ["a"]), (1, ["."])], [(2, ["a"]), (1, ["."])]) }, .ok .Equal) ∧
    ([(2, ["a"]), (1, ["."])] : List (Nat × List String)).length ≠ 1 ∧
    ([(2, ["a"]), (1, ["."])] : List (Nat × List String)).length ≠ 0 := by
  refine ⟨?_, by decide, by decide⟩
  simp [entry_eq, entry_body, dir_eq, dir_children_eq, rootEntryInfo, FSCmp.new,
    alookup, Entry.stat, Entry.children, Entry.content, metadata_diffs, rootPath,
    listDir, child_entry, lookupChild, List.find?, pathLen, PATH_MAX, file_eq,
    contents_eq, S_IFMT, S_IFDIR, S_IFREG]
  decide

/-- C4 amended.  The registration step of `entry_eq` updates the two inode
maps together or not at all: the maps are left untouched when the identity
check returns the duplicate `Equal` or an `Inodes` diff, and on a fresh
inode pair one entry is pushed onto each map; including every recursive
registration performed by descendants, the whole call always extends the
two maps by equally many entries — never one side alone. -/
theorem C4_joint_map_update (c : FSCmp) (f s : EntryInfo) :
    (∃ l1 l2,
      (entry_eq c f s).1.inode_maps.1 = l1 ++ c.inode_maps.1 ∧
      (entry_eq c f s).1.inode_maps.2 = l2 ++ c.inode_maps.2 ∧
      l1.length = l2.length) ∧
    (alookup c.inode_maps.1 f.entry.stat.st_ino ≠
        alookup c.inode_maps.2 s.entry.stat.st_ino →
      (entry_eq c f s).1 = c) ∧
    (∀ p, alookup c.inode_maps.1 f.entry.stat.st_ino = some p →
        alookup c.inode_maps.2 s.entry.stat.st_ino = some p →
      (entry_eq c f s).1 = c) ∧
    (alookup c.inode_maps.1 f.entry.stat.st_ino = none →
        alookup c.inode_maps.2 s.entry.stat.st_ino = none →
      ∃ l1 l2,
        (entry_eq c f s).1.inode_maps.1 =
          l1 ++ (f.entry.stat.st_ino, f.path) :: c.inode_maps.1 ∧
        (entry_eq c f s).1.inode_maps.2 =
          l2 ++ (s.entry.stat.st_ino, s.path) :: c.inode_maps.2 ∧
        l1.length = l2.length) := by
  refine ⟨?_, ?_, ?_, ?_⟩
  · exact (((engine_state_evolves (sizeOf f.entry) f s le_rfl).1) c).2.2.2.2
  · intro hne
    rw [entry_eq_inodes_diff hne]
  · intro p h1 h2
    rw [entry_eq_dup h1 h2]
  · intro h1 h2
    rw [entry_eq_fresh h1 h2]
    exact (((engine_state_evolves (sizeOf f.entry) f s le_rfl).2.1) _).2.2.2.2

/-- C4 witness: the fresh-pair clause applied to two single regular files
with empty maps; both maps end up holding exactly the new registration. -/
theorem C4_joint_map_update_witness :
    alookup ([] : List (Nat × List String)) 5 = none ∧
    (∃ l1 l2,
      (entry_eq (FSCmp.new ["fr"] ["sr"] none [])
        { parent_path := [], path := ["a"],
          entry := .mk ⟨0o100644, 1, 0, 0, 0, 0, 5⟩ [] [] [] }
        { parent_path := [], path := ["a"],
          entry := .mk ⟨0o100644, 1, 0, 0, 0, 0, 7⟩ [] [] [] }).1.inode_maps.1 =
        l1 ++ (5, ["a"]) :: ([] : List (Nat × List String)) ∧
      (entry_eq (FSCmp.new ["fr"] ["sr"] none [])
        { parent_path := [], path := ["a"],
          entry := .mk ⟨0o100644, 1, 0, 0, 0, 0, 5⟩ [] [] [] }
        { parent_path := [], path := ["a"],
          entry := .mk ⟨0o100644, 1, 0, 0, 0, 0, 7⟩ [] [] [] }).1.inode_maps.2 =
        l2 ++ (7, ["a"]) :: ([] : List (Nat × List String)) ∧
      l1.length = l2.length) :=
  ⟨rfl, by
    have h := (C4_joint_map_update (FSCmp.new ["fr"] ["sr"] none [])
      { parent_path := [], path := ["a"],
        entry := .mk ⟨0o100644, 1, 0, 0, 0, 0, 5⟩ [] [] [] }
      { parent_path := [], path := ["a"],
        entry := .mk ⟨0o100644, 1, 0, 0, 0, 0, 7⟩ [] [] [] }).2.2.2 rfl rfl
    simpa [Entry.stat, FSCmp.new] using h⟩
/-- A successful ranged read returns the requested slice. -/
theorem readRange_some {l : List Nat} {start cnt : Nat}
    (h : start + cnt ≤ l.length) :
    readRange l start cnt = some ((l.drop start).take cnt) := if_pos h

/-- A successful ranged read returns exactly `cnt` bytes. -/
theorem readRange_length {l d : List Nat} {start cnt : Nat}
    (h : readRange l start cnt = some d) : d.length = cnt := by
  unfold readRange at h
  split at h
  next hc =>
    cases h
    simp only [List.length_take, List.length_drop]
    omega
  next => cases h

/-- The chunk loop can never reach the `panic!` inside `get_diff_index`:
two successfully read chunks have the same length, so if they differ a
first differing index exists. -/
theorem contents_loop_no_fatal (c : FSCmp) (f s : EntryInfo) (size leap : Nat)
    (idxs : List Nat) : contents_loop c f s size leap idxs ≠ .fatal := by
  induction idxs with
  | nil => simp [contents_loop]
  | cons i rest ihr =>
    rw [contents_loop]
    rcases hr1 : readRange f.entry.content (i * leap)
        (min size (i * leap + BUF_SIZE) - i * leap) with _ | d1 <;>
      simp only [hr1]
    · simp
    · rcases hr2 : readRange s.entry.content (i * leap)
          (min size (i * leap + BUF_SIZE) - i * leap) with _ | d2 <;>
        simp only [hr2]
      · simp
      · by_cases hd : d1 = d2
        · simp only [if_pos hd]
          exact ihr
        · simp only [if_neg hd]
          have hlen : d1.length = d2.length := by
            rw [readRange_length hr1, readRange_length hr2]
          obtain ⟨j, hj, _⟩ := get_diff_index_exists hlen hd
          rw [hj]
          simp

/-- The content comparison never panics. -/
theorem contents_eq_no_fatal (c : FSCmp) (f s : EntryInfo) (size : Nat) :
    (contents_eq c f s size).2 ≠ .fatal := by
  unfold contents_eq
  split
  · simp
  · exact contents_loop_no_fatal c f s size _ _

/-- The regular-file comparison never panics. -/
theorem file_eq_no_fatal (c : FSCmp) (f s : EntryInfo) :
    (file_eq c f s).2 ≠ .fatal := by
  unfold file_eq
  split
  · simp
  · exact contents_eq_no_fatal c f s _

/-- The symlink comparison never panics. -/
theorem symlink_eq_no_fatal (c : FSCmp) (f s : EntryInfo) :
    (symlink_eq c f s).2 ≠ .fatal := by
  unfold symlink_eq
  split <;> simp

/-- The character-device comparison never panics. -/
theorem char_device_eq_no_fatal (c : FSCmp) (f s : EntryInfo) :
    (char_device_eq c f s).2 ≠ .fatal := by
  unfold char_device_eq
  split <;> simp

/-- The block-device comparison never panics. -/
theorem block_device_eq_no_fatal (c : FSCmp) (f s : EntryInfo) :
    (block_device_eq c f s).2 ≠ .fatal :=
  char_device_eq_no_fatal c f s

/-- An entry of a tree all of whose objects have recognized types has a
recognized type itself. -/
theorem allRecognized_type {e : Entry} (h : allRecognized e = true) :
    recognizedType (e.stat.st_mode &&& S_IFMT) := by
  rw [allRecognized] at h
  simp only [Bool.and_eq_true, decide_eq_true_eq] at h
  exact h.1

/-- Children of a tree all of whose objects have recognized types are
themselves trees of recognized types. -/
theorem allRecognized_child {e ce : Entry} {nm : String}
    (h : allRecognized e = true) (hc : lookupChild e nm = some ce) :
    allRecognized ce = true := by
  rw [allRecognized] at h
  simp only [Bool.and_eq_true, List.all_eq_true] at h
  unfold lookupChild at hc
  rcases hf : (e.children).find? (fun p => p.1 == nm) with _ | ab <;> rw [hf] at hc
  · cases hc
  · simp only [Option.map_some', Option.some.injEq] at hc
    have hmem := List.mem_of_find?_eq_some hf
    have hall := h.2 ⟨ab, hmem⟩ (List.mem_attach _ _)
    rw [← hc]
    exact hall

/-- The object a `child_entry` resolves is the `lookupChild` result. -/
theorem child_entry_lookup {e : EntryInfo} {nm : String} {cf : EntryInfo}
    (h : child_entry e nm = some cf) : lookupChild e.entry nm = some cf.entry := by
  unfold child_entry at h
  rcases Option.map_eq_some'.mp h with ⟨ce, hf, hcf⟩
  have hce : cf.entry = ce := by
    subst hcf
    by_cases hp : PATH_MAX < pathLen (if e.path.head? = some "." then [nm] else e.path ++ [nm]) <;>
      simp [hp]
  rw [hce]
  exact hf

/-- Master panic-freedom lemma: when every object of the dispatched (first)
tree has one of the seven recognized file types, no engine operation
reaches a `panic!`. -/
theorem engine_no_fatal :
    ∀ (n : Nat) (f s : EntryInfo), sizeOf f.entry ≤ n →
      allRecognized f.entry = true →
      (∀ c, (entry_eq c f s).2 ≠ .fatal) ∧
      (∀ c, (entry_body c f s).2 ≠ .fatal) ∧
      (∀ c, (dir_eq c f s).2 ≠ .fatal) ∧
      (∀ c n1 n2 pending, (dir_children_eq c f s n1 n2 pending).2 ≠ .fatal) := by
  intro n
  induction n with
  | zero =>
    intro f s h hrec
    exfalso
    cases hE : f.entry with
    | mk st cs d t =>
      rw [hE] at h
      simp only [Entry.mk.sizeOf_spec] at h
      omega
  | succ n ih =>
    intro f s hsz hrec
    have hchildren : ∀ pending c n1 n2,
        (dir_children_eq c f s n1 n2 pending).2 ≠ .fatal := by
      intro pending
      induction pending with
      | nil =>
        intro c n1 n2
        rw [dir_children_eq_nil]
        simp
      | cons nm rest ihp =>
        intro c n1 n2
        by_cases hmem : nm ∈ n2
        · rcases hc1 : child_entry f nm with _ | cf
          · rw [dir_children_eq_err1 hmem hc1]
            simp
          · rcases hc2 : child_entry s nm with _ | cs2
            · rw [dir_children_eq_err2 hmem hc1 hc2]
              simp
            · rw [dir_children_eq_cons hmem hc1 hc2]
              have hcfsz : sizeOf cf.entry ≤ n := by
                have := child_entry_sizeOf hc1
                omega
              have hcfrec : allRecognized cf.entry = true :=
                allRecognized_child hrec (child_entry_lookup hc1)
              have hev : (entry_eq c cf cs2).2 ≠ .fatal :=
                ((ih cf cs2 hcfsz hcfrec).1) c
              split
              · exact ihp _ n1 n2
              · exact hev
        · rw [dir_children_eq_notmem hmem]
          simp
    have hdir : ∀ c, (dir_eq c f s).2 ≠ .fatal := by
      intro c
      rw [dir_eq_unfold]
      split
      · simp
      · exact hchildren _ c _ _
    have hbody : ∀ c, (entry_body c f s).2 ≠ .fatal := by
      intro c
      rw [entry_body]
      rcases hmd : metadata_diffs (decide (f.path = rootPath)) f.entry.stat s.entry.stat
        with _ | d <;> simp only [hmd]
      · rcases allRecognized_type hrec with h | h | h | h | h | h | h <;> rw [h] <;>
          simp only [S_IFDIR, S_IFREG, S_IFLNK, S_IFBLK, S_IFCHR, S_IFIFO, S_IFSOCK] <;>
          norm_num
        · exact hdir c
        · exact file_eq_no_fatal c f s
        · exact symlink_eq_no_fatal c f s
        · exact block_device_eq_no_fatal c f s
        · exact char_device_eq_no_fatal c f s
        · simp [fifo_eq]
        · simp [socket_eq]
      · simp
    refine ⟨?_, hbody, hdir, fun c n1 n2 pending => hchildren pending c n1 n2⟩
    intro c
    rcases h1 : alookup c.inode_maps.1 f.entry.stat.st_ino with _ | p1
    · rcases h2 : alookup c.inode_maps.2 s.entry.stat.st_ino with _ | p2
      · rw [entry_eq_fresh h1 h2]
        exact hbody _
      · rw [entry_eq_inodes_diff (by rw [h1, h2]; simp)]
        simp
    · rcases h2 : alookup c.inode_maps.2 s.entry.stat.st_ino with _ | p2
      · rw [entry_eq_inodes_diff (by rw [h1, h2]; simp)]
        simp
      · by_cases hp : p1 = p2
        · subst hp
          rw [entry_eq_dup h1 h2]
          simp
        · rw [entry_eq_inodes_diff (by rw [h1, h2]; simp [hp])]
          simp

/-- C8 counterexample.  The claim says `entry_eq` panics exactly when the
file type is unrecognized.  Here the first entry's type bits are 0 (none of
the seven types), but its inode pair is already recorded at equal paths on
both sides, so the identity check returns the duplicate `Equal` before the
dispatch is reached: no panic occurs despite the unrecognized type. -/
theorem C8_claim_counterexample :
    entry_eq
        { first := ["fr"], second := ["sr"], full_compare_limit := none,
          ignored_dirs := [], inode_maps := ([(5, ["a"])], [(7, ["a"])]) }
        { parent_path := [], path := ["b"],
          entry := .mk ⟨0, 1, 0, 0, 0, 0, 5⟩ [] [] [] }
        { parent_path := [], path := ["b"],
          entry := .mk ⟨0, 1, 0, 0, 0, 0, 7⟩ [] [] [] } =
      ({ first := ["fr"], second := ["sr"], full_compare_limit := none,
         ignored_dirs := [], inode_maps := ([(5, ["a"])], [(7, ["a"])]) },
       .ok .Equal) ∧
    ¬ recognizedType ((0 : Nat) &&& S_IFMT) := by
  constructor
  · simp [entry_eq, alookup, Entry.stat]
  · decide

/-- C8 amended.  `entry_eq`'s own `panic!` is taken exactly when control
reaches the type dispatch — the identity check classified the pair as new
and no metadata field differed — and the first entry's file type is none
of the seven recognized ones; conversely, when every object of the first
tree has a recognized type, no `panic!` (its own or a descendant's) is
reachable and the call returns a `Comparison` or an operational error. -/
theorem C8_panic_condition :
    (∀ (c : FSCmp) (f s : EntryInfo),
      alookup c.inode_maps.1 f.entry.stat.st_ino = none →
      alookup c.inode_maps.2 s.entry.stat.st_ino = none →
      metadata_diffs (decide (f.path = rootPath)) f.entry.stat s.entry.stat = none →
      ¬ recognizedType (f.entry.stat.st_mode &&& S_IFMT) →
      (entry_eq c f s).2 = .fatal) ∧
    (∀ (c : FSCmp) (f s : EntryInfo),
      allRecognized f.entry = true →
      (entry_eq c f s).2 ≠ .fatal) := by
  constructor
  · intro c f s h1 h2 hmd hrec
    rw [entry_eq_fresh h1 h2, entry_body]
    simp only [hmd]
    have hn1 : f.entry.stat.st_mode &&& S_IFMT ≠ S_IFDIR := fun hh => hrec (.inl hh)
    have hn2 : f.entry.stat.st_mode &&& S_IFMT ≠ S_IFREG := fun hh => hrec (.inr (.inl hh))
    have hn3 : f.entry.stat.st_mode &&& S_IFMT ≠ S_IFLNK :=
      fun hh => hrec (.inr (.inr (.inl hh)))
    have hn4 : f.entry.stat.st_mode &&& S_IFMT ≠ S_IFBLK :=
      fun hh => hrec (.inr (.inr (.inr (.inl hh))))
    have hn5 : f.entry.stat.st_mode &&& S_IFMT ≠ S_IFCHR :=
      fun hh => hrec (.inr (.inr (.inr (.inr (.inl hh)))))
    have hn6 : f.entry.stat.st_mode &&& S_IFMT ≠ S_IFIFO :=
      fun hh => hrec (.inr (.inr (.inr (.inr (.inr (.inl hh))))))
    have hn7 : f.entry.stat.st_mode &&& S_IFMT ≠ S_IFSOCK :=
      fun hh => hrec (.inr (.inr (.inr (.inr (.inr (.inr hh))))))
    simp [hn1, hn2, hn3, hn4, hn5, hn6, hn7]
  · intro c f s hrec
    exact ((engine_no_fatal (sizeOf f.entry) f s le_rfl hrec).1) c

/-- C8 witness: the panic clause at a concrete fresh entry of type bits 0,
and the no-panic clause at a concrete regular file. -/
theorem C8_panic_condition_witness :
    ¬ recognizedType ((0 : Nat) &&& S_IFMT) ∧
    (entry_eq (FSCmp.new ["fr"] ["sr"] none [])
        { parent_path := [], path := ["b"],
          entry := .mk ⟨0, 1, 0, 0, 0, 0, 5⟩ [] [] [] }
        { parent_path := [], path := ["b"],
          entry := .mk ⟨0, 1, 0, 0, 0, 0, 7⟩ [] [] [] }).2 = .fatal ∧
    allRecognized (.mk ⟨0o100644, 1, 0, 0, 0, 0, 5⟩ [] [] []) = true ∧
    (entry_eq (FSCmp.new ["fr"] ["sr"] none [])
        { parent_path := [], path := ["b"],
          entry := .mk ⟨0o100644, 1, 0, 0, 0, 0, 5⟩ [] [] [] }
        { parent_path := [], path := ["b"],
          entry := .mk ⟨0o100644, 1, 0, 0, 0, 0, 7⟩ [] [] [] }).2 ≠ .fatal :=
  ⟨by decide,
   C8_panic_condition.1 (FSCmp.new ["fr"] ["sr"] none [])
     { parent_path := [], path := ["b"],
       entry := .mk ⟨0, 1, 0, 0, 0, 0, 5⟩ [] [] [] }
     { parent_path := [], path := ["b"],
       entry := .mk ⟨0, 1, 0, 0, 0, 0, 7⟩ [] [] [] }
     rfl rfl (by simp [metadata_diffs, Entry.stat, rootPath]) (by decide),
   by rw [allRecognized]; decide,
   C8_panic_condition.2 (FSCmp.new ["fr"] ["sr"] none [])
     { parent_path := [], path := ["b"],
       entry := .mk ⟨0o100644, 1, 0, 0, 0, 0, 5⟩ [] [] [] }
     { parent_path := [], path := ["b"],
       entry := .mk ⟨0o100644, 1, 0, 0, 0, 0, 7⟩ [] [] [] }
     (by rw [allRecognized]; decide)⟩
/-- With the limit equal to the size and at least one chunk in the file,
the leap collapses to the chunk size. -/
theorem calc_leap_limit_self {size chunk : Nat} (h1 : 0 < chunk)
    (h2 : chunk ≤ size) : calc_leap size size chunk = chunk := by
  unfold calc_leap
  rw [if_neg (by omega)]
  have hq : size ≤ chunk * ((size + chunk - 1) / chunk) := by
    have hdm := Nat.div_add_mod (size + chunk - 1) chunk
    have hmlt : (size + chunk - 1) % chunk < chunk := Nat.mod_lt _ h1
    set q := (size + chunk - 1) / chunk
    set m := (size + chunk - 1) % chunk
    set x := chunk * q
    omega
  have hq0 : 0 < (size + chunk - 1) / chunk := by
    rcases Nat.eq_zero_or_pos ((size + chunk - 1) / chunk) with h | h
    · rw [h, Nat.mul_zero] at hq
      omega
    · exact h
  have hle : size / ((size + chunk - 1) / chunk) ≤ chunk := by
    calc size / ((size + chunk - 1) / chunk)
        ≤ chunk * ((size + chunk - 1) / chunk) / ((size + chunk - 1) / chunk) :=
          Nat.div_le_div_right hq
      _ = chunk := Nat.mul_div_cancel chunk hq0
  exact Nat.max_eq_left hle

/-- Bytes delivered by a successful ranged read, indexed from the start of
the range. -/
theorem readRange_getElem? {l d : List Nat} {start cnt : Nat}
    (h : readRange l start cnt = some d) (t : Nat) :
    d[t]? = if t < cnt then l[start + t]? else none := by
  unfold readRange at h
  split at h
  next hc =>
    cases h
    rw [List.getElem?_take]
    split
    next ht => rw [List.getElem?_drop]
    next => rfl
  next => cases h

/-- Two ranged reads over contents that agree on the whole range succeed
with the same data. -/
theorem readRange_eq_of_agree {c1 c2 : List Nat} {start cnt : Nat}
    (hle : start + cnt ≤ c1.length) (hlen : c1.length = c2.length)
    (hag : ∀ t, start ≤ t → t < start + cnt → c1[t]? = c2[t]?) :
    ∃ d, readRange c1 start cnt = some d ∧ readRange c2 start cnt = some d := by
  have hle2 : start + cnt ≤ c2.length := hlen ▸ hle
  refine ⟨(c1.drop start).take cnt, readRange_some hle, ?_⟩
  rw [readRange_some hle2]
  congr 1
  apply List.ext_getElem?
  intro t
  rw [List.getElem?_take, List.getElem?_take]
  split
  next ht =>
    rw [List.getElem?_drop, List.getElem?_drop]
    exact (hag (start + t) (by omega) (by omega)).symm
  next => rfl

/-- Chunks whose two ranges read back equal data are skipped by the loop. -/
theorem contents_loop_skip {c : FSCmp} {f s : EntryInfo} {size leap : Nat}
    {l1 l2 : List Nat}
    (h : ∀ i ∈ l1, ∃ d,
      readRange f.entry.content (i * leap)
        (min size (i * leap + BUF_SIZE) - i * leap) = some d ∧
      readRange s.entry.content (i * leap)
        (min size (i * leap + BUF_SIZE) - i * leap) = some d) :
    contents_loop c f s size leap (l1 ++ l2) =
      contents_loop c f s size leap l2 := by
  induction l1 with
  | nil => rfl
  | cons i rest ihr =>
    obtain ⟨d, h1, h2⟩ := h i (List.mem_cons_self i rest)
    rw [List.cons_append, contents_loop]
    simp only [h1, h2, if_true]
    exact ihr (fun j hj => h j (List.mem_cons_of_mem i hj))

/-- When the head chunk contains the first differing byte `k`, the loop
stops there and reports the 512-byte block index `k / BLOCK_SIZE`. -/
theorem contents_loop_hit (c : FSCmp) (f s : EntryInfo) (size leap j k : Nat)
    (rest : List Nat)
    (hstart : j * leap ≤ k)
    (hkin : k < min size (j * leap + BUF_SIZE))
    (hfits : min size (j * leap + BUF_SIZE) ≤ f.entry.content.length)
    (hlen : f.entry.content.length = s.entry.content.length)
    (hdiff : f.entry.content[k]? ≠ s.entry.content[k]?)
    (hagree : ∀ i, i < k → f.entry.content[i]? = s.entry.content[i]?) :
    ∃ b1 b2, contents_loop c f s size leap (j :: rest) =
      .ok (unequal c (.Contents (k / BLOCK_SIZE) b1 b2) f s) := by
  have hstop : j * leap ≤ min size (j * leap + BUF_SIZE) := by omega
  have hle1 : j * leap + (min size (j * leap + BUF_SIZE) - j * leap) ≤
      f.entry.content.length := by omega
  obtain ⟨d1, hr1⟩ : ∃ d1, readRange f.entry.content (j * leap)
      (min size (j * leap + BUF_SIZE) - j * leap) = some d1 :=
    ⟨_, readRange_some hle1⟩
  obtain ⟨d2, hr2⟩ : ∃ d2, readRange s.entry.content (j * leap)
      (min size (j * leap + BUF_SIZE) - j * leap) = some d2 :=
    ⟨_, readRange_some (by omega)⟩
  have hcnt1 := readRange_length hr1
  have hcnt2 := readRange_length hr2
  have hd1k := readRange_getElem? hr1 (k - j * leap)
  have hd2k := readRange_getElem? hr2 (k - j * leap)
  rw [if_pos (by omega)] at hd1k hd2k
  rw [Nat.add_sub_cancel' hstart] at hd1k hd2k
  have hne : d1 ≠ d2 := by
    intro he
    rw [he] at hd1k
    exact hdiff (hd1k.symm.trans hd2k)
  have hgdi : get_diff_index d1 d2 = some (k - j * leap) := by
    refine get_diff_index_first_diff (by rw [hcnt1, hcnt2]) ?_ ?_
    · rw [hd1k, hd2k]
      exact hdiff
    · intro t ht
      have ht1 := readRange_getElem? hr1 t
      have ht2 := readRange_getElem? hr2 t
      rw [if_pos (by omega)] at ht1 ht2
      rw [ht1, ht2]
      exact hagree (j * leap + t) (by omega)
  rw [contents_loop]
  simp only [hr1, hr2]
  rw [if_neg hne]
  simp only [hgdi]
  rw [Nat.add_sub_cancel' hstart]
  exact ⟨_, _, rfl⟩
/-- C1 amended.  With no compare limit configured, for two equal-length
contents that differ at exactly one byte offset `k` lying inside the
sampled chunks (`coveredLen`), `contents_eq` reports an Unequal `Contents`
diff whose recorded value is the 512-byte block index `k / BLOCK_SIZE` of
the differing byte — a block number, not a byte offset. -/
theorem C1_contents_block_index (c : FSCmp) (f s : EntryInfo) (size k : Nat)
    (hlimit : c.full_compare_limit = none)
    (hlen1 : f.entry.content.length = size)
    (hlen2 : s.entry.content.length = size)
    (hk : k < coveredLen size)
    (hdiff : f.entry.content[k]? ≠ s.entry.content[k]?)
    (hagree : ∀ i, i < size → i ≠ k → f.entry.content[i]? = s.entry.content[i]?) :
    ∃ b1 b2, (contents_eq c f s size).2 =
      .ok (.Unequal (.Contents (k / BLOCK_SIZE) b1 b2) c.first c.second
        (if f.path = s.path then some (f.parent_path ++ f.path) else none)) := by
  have hBpos : 0 < BUF_SIZE := by norm_num [BUF_SIZE]
  have hcov_le : coveredLen size ≤ size := by
    unfold coveredLen
    split
    · exact le_rfl
    · exact Nat.div_mul_le_self size BUF_SIZE
  have hksize : k < size := lt_of_lt_of_le hk hcov_le
  have hsize0 : ¬ size = 0 := by omega
  have hlen12 : f.entry.content.length = s.entry.content.length :=
    hlen1.trans hlen2.symm
  have hagree2 : ∀ i, i < k → f.entry.content[i]? = s.entry.content[i]? :=
    fun i hi => hagree i (by omega) (by omega)
  unfold contents_eq
  rw [if_neg hsize0]
  simp only [hlimit]
  by_cases hsb : size < BUF_SIZE
  · have hleap : calc_leap size size BUF_SIZE = size := by
      unfold calc_leap
      rw [if_pos hsb]
    have hcnt : calc_chunk_count size BUF_SIZE = 1 := by
      unfold calc_chunk_count
      rw [Nat.div_eq_of_lt hsb]
      decide
    rw [hleap, hcnt]
    obtain ⟨b1, b2, hb⟩ := contents_loop_hit c f s size size 0 k []
      (by simp)
      (by rw [Nat.zero_mul, Nat.zero_add, Nat.min_eq_left (Nat.le_of_lt hsb)]
          exact hksize)
      (by rw [Nat.zero_mul, Nat.zero_add, Nat.min_eq_left (Nat.le_of_lt hsb), hlen1])
      hlen12 hdiff hagree2
    refine ⟨b1, b2, ?_⟩
    have hr1 : List.range 1 = [0] := rfl
    rw [hr1]
    show contents_loop c f s size size [0] =
      .ok (.Unequal (.Contents (k / BLOCK_SIZE) b1 b2) c.first c.second
        (if f.path = s.path then some (f.parent_path ++ f.path) else none))
    rw [hb]
    rfl
  · push_neg at hsb
    have hleap : calc_leap size size BUF_SIZE = BUF_SIZE :=
      calc_leap_limit_self hBpos hsb
    have hm1 : 1 ≤ size / BUF_SIZE := (Nat.one_le_div_iff hBpos).mpr hsb
    have hcnt : calc_chunk_count size BUF_SIZE = size / BUF_SIZE := by
      unfold calc_chunk_count
      exact Nat.max_eq_left hm1
    have hkcov : k < size / BUF_SIZE * BUF_SIZE := by
      have hcv : coveredLen size = size / BUF_SIZE * BUF_SIZE := by
        unfold coveredLen
        rw [if_neg (by omega)]
      omega
    have hjm : k / BUF_SIZE < size / BUF_SIZE :=
      (Nat.div_lt_iff_lt_mul hBpos).mpr hkcov
    have hjk : k / BUF_SIZE * BUF_SIZE ≤ k := Nat.div_mul_le_self k BUF_SIZE
    have hkj : k < k / BUF_SIZE * BUF_SIZE + BUF_SIZE := by
      have h1 := Nat.div_add_mod k BUF_SIZE
      have h2 := Nat.mod_lt k hBpos
      have h3 : BUF_SIZE * (k / BUF_SIZE) = k / BUF_SIZE * BUF_SIZE :=
        Nat.mul_comm _ _
      set x := k / BUF_SIZE * BUF_SIZE
      omega
    have hjBk : k / BUF_SIZE * BUF_SIZE ≤ size / BUF_SIZE * BUF_SIZE :=
      Nat.mul_le_mul_right _ (Nat.le_of_lt hjm)
    have hmB : size / BUF_SIZE * BUF_SIZE ≤ size := Nat.div_mul_le_self size BUF_SIZE
    rw [hleap, hcnt]
    have hEQ : List.range (size / BUF_SIZE) =
        List.range' 0 (k / BUF_SIZE) ++
        List.range' (k / BUF_SIZE) (size / BUF_SIZE - k / BUF_SIZE) := by
      rw [List.range_eq_range']
      have hap := List.range'_append 0 (k / BUF_SIZE)
        (size / BUF_SIZE - k / BUF_SIZE) 1
      simp only [Nat.mul_one, Nat.zero_add, Nat.one_mul] at hap
      have h5 : size / BUF_SIZE - k / BUF_SIZE + k / BUF_SIZE = size / BUF_SIZE :=
        Nat.sub_add_cancel (Nat.le_of_lt hjm)
      conv_lhs => rw [← h5]
      exact hap.symm
    rw [hEQ]
    have hskip : ∀ i ∈ List.range' 0 (k / BUF_SIZE), ∃ d,
        readRange f.entry.content (i * BUF_SIZE)
          (min size (i * BUF_SIZE + BUF_SIZE) - i * BUF_SIZE) = some d ∧
        readRange s.entry.content (i * BUF_SIZE)
          (min size (i * BUF_SIZE + BUF_SIZE) - i * BUF_SIZE) = some d := by
      intro i hi
      have hij : i < k / BUF_SIZE := by
        rcases List.mem_range'.mp hi with ⟨t, ht, rfl⟩
        omega
      have hii : i * BUF_SIZE + BUF_SIZE ≤ k :=
        calc i * BUF_SIZE + BUF_SIZE = (i + 1) * BUF_SIZE :=
              (Nat.succ_mul i BUF_SIZE).symm
          _ ≤ k / BUF_SIZE * BUF_SIZE := Nat.mul_le_mul_right _ (by omega)
          _ ≤ k := hjk
      have hmin : min size (i * BUF_SIZE + BUF_SIZE) = i * BUF_SIZE + BUF_SIZE :=
        Nat.min_eq_right (by omega)
      rw [hmin]
      apply readRange_eq_of_agree
      · rw [hlen1]
        omega
      · exact hlen12
      · intro t h1t h2t
        exact hagree2 t (by omega)
    rw [contents_loop_skip hskip]
    have hmj : size / BUF_SIZE - k / BUF_SIZE =
        (size / BUF_SIZE - k / BUF_SIZE - 1) + 1 := by omega
    rw [hmj, List.range'_succ]
    obtain ⟨b1, b2, hb⟩ := contents_loop_hit c f s size BUF_SIZE (k / BUF_SIZE) k
      (List.range' (k / BUF_SIZE + 1) (size / BUF_SIZE - k / BUF_SIZE - 1))
      hjk
      (Nat.lt_min.mpr ⟨hksize, hkj⟩)
      (by rw [hlen1]; exact Nat.min_le_left _ _)
      hlen12 hdiff hagree2
    refine ⟨b1, b2, ?_⟩
    show contents_loop c f s size BUF_SIZE _ = _
    rw [hb]
    rfl

/-- C1 witness: the amended theorem at two four-byte files differing only
at offset 1; the diff records block index 1 / 512 = 0. -/
theorem C1_contents_block_index_witness :
    (FSCmp.new ["fr"] ["sr"] none []).full_compare_limit = none ∧
    (1 : Nat) < coveredLen 4 ∧
    ([0, 9, 0, 0] : List Nat)[1]? ≠ ([0, 0, 0, 0] : List Nat)[1]? ∧
    ∃ b1 b2, (contents_eq (FSCmp.new ["fr"] ["sr"] none [])
        { parent_path := [], path := ["x"],
          entry := .mk ⟨0o100644, 1, 0, 0, 4, 0, 5⟩ [] [0, 9, 0, 0] [] }
        { parent_path := [], path := ["x"],
          entry := .mk ⟨0o100644, 1, 0, 0, 4, 0, 7⟩ [] [0, 0, 0, 0] [] } 4).2 =
      .ok (.Unequal (.Contents (1 / BLOCK_SIZE) b1 b2)
        (FSCmp.new ["fr"] ["sr"] none []).first
        (FSCmp.new ["fr"] ["sr"] none []).second
        (if (["x"] : List String) = ["x"] then some (([] : List String) ++ ["x"])
         else none)) :=
  ⟨rfl, by decide, by decide,
   C1_contents_block_index (FSCmp.new ["fr"] ["sr"] none [])
     { parent_path := [], path := ["x"],
       entry := .mk ⟨0o100644, 1, 0, 0, 4, 0, 5⟩ [] [0, 9, 0, 0] [] }
     { parent_path := [], path := ["x"],
       entry := .mk ⟨0o100644, 1, 0, 0, 4, 0, 7⟩ [] [0, 0, 0, 0] [] }
     4 1 rfl rfl rfl (by decide) (by decide) (by decide)⟩

set_option maxRecDepth 10000 in
/-- C1 counterexample.  Two 513-byte files differing only at byte offset
512 are compared with no limit: the code records `Contents 1` — the
512-byte block index 512/512 = 1 — so the recorded value rounded down to
the block size is 1/512·512 = 0, which differs from the differing offset
rounded down to the block size, 512/512·512 = 512.  The claim's reading of
the recorded value as a byte offset is therefore false at this input. -/
theorem C1_claim_counterexample :
    (contents_eq (FSCmp.new ["fr"] ["sr"] none [])
        { parent_path := [], path := ["x"],
          entry := .mk ⟨0o100644, 1, 0, 0, 513, 0, 5⟩ []
            (List.replicate 512 0 ++ [1]) [] }
        { parent_path := [], path := ["x"],
          entry := .mk ⟨0o100644, 1, 0, 0, 513, 0, 7⟩ []
            (List.replicate 513 0) [] } 513).2 =
      .ok (.Unequal (.Contents 1 [1] [0]) ["fr"] ["sr"] (some ["x"])) ∧
    (1 : Nat) / BLOCK_SIZE * BLOCK_SIZE ≠ 512 / BLOCK_SIZE * BLOCK_SIZE := by
  constructor
  · decide
  · decide
